import Mathlib

/-!
# Verification of the restaurant cost/substitution analytics engines

Shallow embedding of `backend/cost_engine.py` and
`backend/substitution_engine.py`.  The pandas dataframes become lists of
records; Python dicts become association lists with Python's insert /
overwrite semantics (`dictInsert`); floats become exact rationals (ℚ);
Python's stable `list.sort` becomes `List.insertionSort` (a stable sort
with the same comparator, hence the same extensional behaviour).
-/

/-- Row of the `Ingredients` dataframe:
`{ingredient, base_cost_per_unit_usd, lead_time_days, supplier}`. -/
structure Ingredient where
  ingredient : String
  base_cost_per_unit_usd : ℚ
  lead_time_days : Int
  supplier : String
deriving DecidableEq

/-- Row of the `Menu` dataframe: `{menu_item, price_usd, category}`. -/
structure MenuItem where
  menu_item : String
  price_usd : ℚ
  category : String
deriving DecidableEq

/-- Row of the `BOM` dataframe: `{menu_item, ingredient, qty, unit}`. -/
structure BOMEntry where
  menu_item : String
  ingredient : String
  qty : ℚ
  unit : String
deriving DecidableEq

/-- Row of the `Substitutions` dataframe:
`{ingredient, substitute, context, allowed, rationale}`. -/
structure SubstRule where
  ingredient : String
  substitute : String
  context : String
  allowed : Bool
  rationale : String
deriving DecidableEq

/-- The `CostEngine` object: the three read-only relations plus the two
business-assumption attributes set in `__init__`. -/
structure CostEngine where
  ingredients_df : List Ingredient
  menu_df : List MenuItem
  menu_bom_df : List BOMEntry
  MONTHLY_SALES_PER_DISH : ℚ
  LEAD_TIME_THRESHOLD : Int
deriving DecidableEq

/-! ## Python dict as an association list

`dictInsert` mirrors `d[k] = v`: overwrite in place when the key exists,
append otherwise.  `buildDict` mirrors a dict comprehension (later entries
for the same key overwrite earlier ones). -/

/-- `d[k] = v` on a Python dict. -/
def dictInsert {β : Type} (d : List (String × β)) (k : String) (v : β) :
    List (String × β) :=
  if d.any (fun p => p.1 == k) then
    d.map (fun p => if p.1 == k then (k, v) else p)
  else
    d ++ [(k, v)]

/-- Dict comprehension over a list of key/value pairs (last write wins). -/
def buildDict {β : Type} (l : List (String × β)) : List (String × β) :=
  l.foldl (fun d p => dictInsert d p.1 p.2) []

/-- `d.get(k)` / `k in d` lookup. -/
def dictGet? {β : Type} (d : List (String × β)) (k : String) : Option β :=
  (d.find? (fun p => p.1 == k)).map (fun p => p.2)

/-- `d.keys()`. -/
def dictKeys {β : Type} (d : List (String × β)) : List String :=
  d.map (fun p => p.1)

/-! ## calculate_baseline_costs -/

/-- One value of the `ingredient_details` dict built per dish. -/
structure IngredientDetail where
  qty : ℚ
  unit_cost : ℚ
  total_cost : ℚ
  unit : String
deriving DecidableEq

/-- One value of the `baseline_costs` dict (per-dish breakdown). -/
structure DishCost where
  menu_price : ℚ
  ingredient_cost : ℚ
  cost_percentage : ℚ
  category : String
  ingredients : List (String × IngredientDetail)
deriving DecidableEq

/-- `self.menu_bom_df[self.menu_bom_df['menu_item'] == item_name]`. -/
def bomRowsFor (e : CostEngine) (item_name : String) : List BOMEntry :=
  e.menu_bom_df.filter (fun b => b.menu_item == item_name)

/-- `self.ingredients_df[self.ingredients_df['ingredient'] == ing]` followed
by `.iloc[0]` (first matching row, if any). -/
def findIngredient (e : CostEngine) (ing : String) : Option Ingredient :=
  e.ingredients_df.find? (fun i => i.ingredient == ing)

/-- Body of the inner BOM loop of `calculate_baseline_costs`: accumulate
`total_ingredient_cost` and the `ingredient_details` dict; a BOM row whose
ingredient is unknown is skipped. -/
def bomStep (e : CostEngine) (acc : ℚ × List (String × IngredientDetail))
    (bom_row : BOMEntry) : ℚ × List (String × IngredientDetail) :=
  match findIngredient e bom_row.ingredient with
  | none => acc
  | some info =>
      let unit_cost := info.base_cost_per_unit_usd
      let ingredient_cost := bom_row.qty * unit_cost
      (acc.1 + ingredient_cost,
        dictInsert acc.2 bom_row.ingredient
          ⟨bom_row.qty, unit_cost, ingredient_cost, bom_row.unit⟩)

/-- The inner BOM loop of `calculate_baseline_costs` for one menu item. -/
def ingredientCostAndDetails (e : CostEngine) (item_name : String) :
    ℚ × List (String × IngredientDetail) :=
  (bomRowsFor e item_name).foldl (bomStep e) (0, [])

/-- The `baseline_costs[item_name] = {...}` record built for one menu row. -/
def mkDishCost (e : CostEngine) (row : MenuItem) : DishCost :=
  let p := ingredientCostAndDetails e row.menu_item
  { menu_price := row.price_usd
    ingredient_cost := p.1
    cost_percentage := if row.price_usd > 0 then p.1 / row.price_usd * 100 else 0
    category := row.category
    ingredients := p.2 }

/-- `CostEngine.calculate_baseline_costs`: the dict keyed by dish name. -/
def calculate_baseline_costs (e : CostEngine) : List (String × DishCost) :=
  e.menu_df.foldl (fun acc row => dictInsert acc row.menu_item (mkDishCost e row)) []

/-! ## calculate_dish_cost -/

/-- One entry of the `cost_breakdown` list. -/
structure CostBreakdownItem where
  ingredient : String
  quantity : ℚ
  unit : String
  base_unit_price : ℚ
  new_unit_price : ℚ
  base_cost : ℚ
  new_cost : ℚ
  cost_increase : ℚ
  shock_pct : ℚ
deriving DecidableEq

/-- Return value of `calculate_dish_cost` (the source field
`ingredient_cost_ratio` is named `cost_to_price` here). -/
structure DishAnalysis where
  dish_name : String
  menu_price : ℚ
  category : String
  total_base_cost : ℚ
  total_new_cost : ℚ
  total_cost_increase : ℚ
  cost_increase_pct : ℚ
  cost_to_price : ℚ
  cost_breakdown : List CostBreakdownItem
deriving DecidableEq

/-- One `cost_breakdown` entry for one `(ingredient, data)` dict item. -/
def shockAdjustedItem (shocks : List (String × ℚ)) (p : String × IngredientDetail) :
    CostBreakdownItem :=
  let shock_pct := (dictGet? shocks p.1).getD 0
  let base_cost := p.2.total_cost
  let new_cost := base_cost * (1 + shock_pct / 100)
  { ingredient := p.1
    quantity := p.2.qty
    unit := p.2.unit
    base_unit_price := p.2.unit_cost
    new_unit_price := p.2.unit_cost * (1 + shock_pct / 100)
    base_cost := base_cost
    new_cost := new_cost
    cost_increase := new_cost - base_cost
    shock_pct := shock_pct }

/-- Assemble the `calculate_dish_cost` result record. -/
def mkDishAnalysis (dish_name : String) (dish_data : DishCost)
    (total_new_cost : ℚ) (cost_breakdown : List CostBreakdownItem) : DishAnalysis :=
  let total_base_cost := dish_data.ingredient_cost
  { dish_name := dish_name
    menu_price := dish_data.menu_price
    category := dish_data.category
    total_base_cost := total_base_cost
    total_new_cost := total_new_cost
    total_cost_increase := total_new_cost - total_base_cost
    cost_increase_pct :=
      if total_base_cost > 0 then (total_new_cost - total_base_cost) / total_base_cost * 100 else 0
    cost_to_price :=
      if dish_data.menu_price > 0 then total_base_cost / dish_data.menu_price else 0
    cost_breakdown := cost_breakdown }

/-- `CostEngine.calculate_dish_cost`.  `price_shocks` is the optional
ingredient → percent dict; both `None` and the empty dict are falsy in
`if price_shocks:`, so both take the unshocked path. -/
def calculate_dish_cost (e : CostEngine) (dish_name : String)
    (price_shocks : Option (List (String × ℚ))) : Option DishAnalysis :=
  match dictGet? (calculate_baseline_costs e) dish_name with
  | none => none
  | some dish_data =>
      match price_shocks with
      | none => some (mkDishAnalysis dish_name dish_data dish_data.ingredient_cost [])
      | some shocks =>
          if shocks.isEmpty then
            some (mkDishAnalysis dish_name dish_data dish_data.ingredient_cost [])
          else
            let cost_breakdown := dish_data.ingredients.map (shockAdjustedItem shocks)
            let total_new_cost := (cost_breakdown.map (fun c => c.new_cost)).sum
            some (mkDishAnalysis dish_name dish_data total_new_cost cost_breakdown)

/-! ## apply_price_shocks -/

/-- One element of the `price_shocks` request list: `{ingredient, pct}`. -/
structure Shock where
  ingredient : String
  pct : ℚ
deriving DecidableEq

/-- One element of the `affected_dishes` output list. -/
structure DishImpact where
  name : String
  category : String
  cost_increase : ℚ
  percentage_increase : ℚ
  monthly_impact : ℚ
  affected_ingredient : List String
  menu_price : ℚ
deriving DecidableEq

/-- Return value of `apply_price_shocks` (the constant `assumptions`
sub-dict is omitted). -/
structure PriceShockResult where
  affected_dishes : List DishImpact
  most_impacted_dishes : List DishImpact
  total_monthly_increase : ℚ
  price_shocks_applied : List (String × ℚ)
  total_dishes_affected : Nat
deriving DecidableEq

/-- `CostEngine.get_dishes_with_ingredient`: `list(set(...))` modelled as an
order-preserving dedup (Python set order is unspecified; only membership and
distinctness are observable through the claims). -/
def get_dishes_with_ingredient (e : CostEngine) (ingredient : String) : List String :=
  ((e.menu_bom_df.filter (fun b => b.ingredient == ingredient)).map
    (fun b => b.menu_item)).dedup

/-- The `affected_dishes` set of candidate dish names (all dishes containing
any key of the shock dict). -/
def affectedDishNames (e : CostEngine) (shockDict : List (String × ℚ)) : List String :=
  ((dictKeys shockDict).flatMap (fun ing => get_dishes_with_ingredient e ing)).dedup

/-- One `dish_impacts` entry built from a dish analysis. -/
def mkDishImpact (e : CostEngine) (a : DishAnalysis) : DishImpact :=
  { name := a.dish_name
    category := a.category
    cost_increase := a.total_cost_increase
    percentage_increase := a.cost_increase_pct
    monthly_impact := a.total_cost_increase * e.MONTHLY_SALES_PER_DISH
    affected_ingredient :=
      (a.cost_breakdown.filter (fun c => c.shock_pct > 0)).map (fun c => c.ingredient)
    menu_price := a.menu_price }

/-- One iteration of the `dish_impacts` loop: keep a candidate dish only
when its analysis exists and `total_cost_increase > 0`. -/
def impactFor (e : CostEngine) (shockDict : List (String × ℚ))
    (dish_name : String) : Option DishImpact :=
  match calculate_dish_cost e dish_name (some shockDict) with
  | none => none
  | some a => if a.total_cost_increase > 0 then some (mkDishImpact e a) else none

/-- The `dish_impacts` loop over all candidate dishes. -/
def dishImpacts (e : CostEngine) (shockDict : List (String × ℚ)) : List DishImpact :=
  (affectedDishNames e shockDict).filterMap (impactFor e shockDict)

/-- Comparator of `dish_impacts.sort(key=monthly_impact, reverse=True)`:
`a` may precede `b` iff `b.monthly_impact ≤ a.monthly_impact`. -/
def byMonthlyDesc (a b : DishImpact) : Prop :=
  b.monthly_impact ≤ a.monthly_impact

instance : DecidableRel byMonthlyDesc :=
  fun a b => inferInstanceAs (Decidable (b.monthly_impact ≤ a.monthly_impact))

instance : IsTotal DishImpact byMonthlyDesc :=
  ⟨fun a b => le_total b.monthly_impact a.monthly_impact⟩

instance : IsTrans DishImpact byMonthlyDesc :=
  ⟨fun _ _ _ hab hbc => le_trans hbc hab⟩

/-- `CostEngine.apply_price_shocks`. -/
def apply_price_shocks (e : CostEngine) (price_shocks : List Shock) : PriceShockResult :=
  let price_shock_dict := buildDict (price_shocks.map (fun s => (s.ingredient, s.pct)))
  let impacts := dishImpacts e price_shock_dict
  let sorted := List.insertionSort byMonthlyDesc impacts
  { affected_dishes := sorted
    most_impacted_dishes := sorted.take 5
    total_monthly_increase := (impacts.map (fun d => d.monthly_impact)).sum
    price_shocks_applied := price_shock_dict
    total_dishes_affected := (affectedDishNames e price_shock_dict).length }

/-! ## analyze_supply_delays -/

/-- One element of the `delays` request list: `{ingredient, extra_days}`. -/
structure Delay where
  ingredient : String
  extra_days : Int
deriving DecidableEq

/-- One element of the `supply_risks` output list. -/
structure SupplyRisk where
  ingredient : String
  base_lead_time_days : Int
  extra_days_delay : Int
  new_lead_time_days : Int
  risk_level : String
  supplier : String
  affected_dishes : List String
  affected_dish_count : Nat
deriving DecidableEq

/-- One element of the `at_risk_dishes` output list. -/
structure AtRiskDish where
  name : String
  category : String
  affected_ingredient : String
  base_lead_time : Int
  new_lead_time : Int
  extra_days : Int
deriving DecidableEq

/-- Return value of `analyze_supply_delays`. -/
structure DelayResult where
  at_risk_dishes : List AtRiskDish
  supply_risks : List SupplyRisk
  threshold_days : Int
  delays_analyzed : List (String × Int)
deriving DecidableEq

/-- The `risk_priority` map `{'HIGH': 3, 'MEDIUM': 2, 'LOW': 1}`; every
`risk_level` the engine produces is one of the three keys. -/
def risk_priority (s : String) : Nat :=
  if s == "HIGH" then 3 else if s == "MEDIUM" then 2 else 1

/-- Comparator of the supply-risk sort: key
`(risk_priority, affected_dish_count)`, both descending, tier dominant. -/
def byRiskDesc (a b : SupplyRisk) : Prop :=
  risk_priority b.risk_level < risk_priority a.risk_level ∨
    (risk_priority b.risk_level = risk_priority a.risk_level ∧
      b.affected_dish_count ≤ a.affected_dish_count)

instance : DecidableRel byRiskDesc :=
  fun a b => inferInstanceAs (Decidable (_ ∨ _))

instance : IsTotal SupplyRisk byRiskDesc := by
  constructor
  intro a b
  unfold byRiskDesc
  omega

instance : IsTrans SupplyRisk byRiskDesc := by
  constructor
  intro a b c hab hbc
  unfold byRiskDesc at *
  omega

/-- The `supply_risks` entry built for one delay entry whose ingredient was
found (unknown ingredients are skipped by `continue`). -/
def mkSupplyRisk (e : CostEngine) (threshold_days : Int) (delay : Delay)
    (ingredient_data : Ingredient) : SupplyRisk :=
  let base_lead_time := ingredient_data.lead_time_days
  let new_lead_time := base_lead_time + delay.extra_days
  let risk_level :=
    if new_lead_time > threshold_days then "HIGH"
    else if delay.extra_days > 2 then "MEDIUM"
    else "LOW"
  let affected_dishes := get_dishes_with_ingredient e delay.ingredient
  { ingredient := delay.ingredient
    base_lead_time_days := base_lead_time
    extra_days_delay := delay.extra_days
    new_lead_time_days := new_lead_time
    risk_level := risk_level
    supplier := ingredient_data.supplier
    affected_dishes := affected_dishes
    affected_dish_count := affected_dishes.length }

/-- The unsorted `supply_risks` list.  (The `dish_details` list the source
builds inside this loop is dead code: it is never returned.) -/
def supplyRisksRaw (e : CostEngine) (delays : List Delay) (threshold_days : Int) :
    List SupplyRisk :=
  delays.filterMap (fun delay =>
    match findIngredient e delay.ingredient with
    | none => none
    | some ingredient_data => some (mkSupplyRisk e threshold_days delay ingredient_data))

/-- The flattened `at_risk_dishes` list: one entry per (dish, ingredient)
pair of every HIGH or MEDIUM risk, keeping only dishes present in the menu. -/
def atRiskDishes (e : CostEngine) (sorted_risks : List SupplyRisk) : List AtRiskDish :=
  sorted_risks.flatMap (fun risk =>
    if risk.risk_level == "HIGH" || risk.risk_level == "MEDIUM" then
      risk.affected_dishes.filterMap (fun dish_name =>
        match e.menu_df.find? (fun m => m.menu_item == dish_name) with
        | none => none
        | some dish_info =>
            some { name := dish_name
                   category := dish_info.category
                   affected_ingredient := risk.ingredient
                   base_lead_time := risk.base_lead_time_days
                   new_lead_time := risk.new_lead_time_days
                   extra_days := risk.extra_days_delay })
    else [])

/-- `CostEngine.analyze_supply_delays`. -/
def analyze_supply_delays (e : CostEngine) (delays : List Delay)
    (threshold_days : Int) : DelayResult :=
  let sorted := List.insertionSort byRiskDesc (supplyRisksRaw e delays threshold_days)
  { at_risk_dishes := atRiskDishes e sorted
    supply_risks := sorted
    threshold_days := threshold_days
    delays_analyzed := buildDict (delays.map (fun d => (d.ingredient, d.extra_days))) }

/-! ## Substitution engine -/

/-- The `SubstitutionEngine` object: the two relations it holds. -/
structure SubstitutionEngine where
  substitutions_df : List SubstRule
  ingredients_df : List Ingredient
deriving DecidableEq

/-- One rule dict returned by `get_substitutions_for_ingredient`. -/
structure SubRuleOut where
  original : String
  substitute : String
  context : String
  rationale : String
deriving DecidableEq

/-- Substring check: `pat` occurs as a contiguous run inside `hay`
(checked as: `pat` is a prefix of some suffix of `hay`). -/
def hasInfix (pat : List Char) : List Char → Bool
  | [] => pat.isEmpty
  | h :: t => pat.isPrefixOf (h :: t) || hasInfix pat t

/-- The spec-prescribed reading of the
`str.lower().str.contains(context.lower(), na=False)` filter: the context
taken as literal text, i.e. case-insensitive substring containment
(case folded with ASCII `Char.toLower`; the tables hold ASCII labels).
The source as executed by pandas instead interprets the context as a
regular expression (`str.contains` defaults to `regex=True`); that
divergence is the C8 code bug, exhibited by `context_regex_divergence`
through the fragment model `ctxContainsRegexDot`. -/
def ctxContains (hay pat : String) : Bool :=
  hasInfix (pat.toList.map Char.toLower) (hay.toList.map Char.toLower)

/-- Project a `SubstRule` row to the returned rule dict. -/
def mkRuleOut (r : SubstRule) : SubRuleOut :=
  ⟨r.ingredient, r.substitute, r.context, r.rationale⟩

/-- `SubstitutionEngine.get_substitutions_for_ingredient`.  `if context:` is
falsy for both `None` and the empty string. -/
def get_substitutions_for_ingredient (eng : SubstitutionEngine)
    (ingredient : String) (context : Option String) : List SubRuleOut :=
  let ingredient_subs :=
    eng.substitutions_df.filter (fun r => r.ingredient == ingredient && r.allowed)
  let context_subs :=
    match context with
    | none => ingredient_subs
    | some c =>
        if c.isEmpty then ingredient_subs
        else
          let filtered :=
            ingredient_subs.filter (fun r : SubstRule => ctxContains r.context c)
          if filtered.isEmpty then ingredient_subs else filtered
  context_subs.map mkRuleOut

/-- `SubstitutionEngine.get_ingredient_price` (0.0 when unknown). -/
def get_ingredient_price (eng : SubstitutionEngine) (ingredient : String) : ℚ :=
  match eng.ingredients_df.find? (fun i => i.ingredient == ingredient) with
  | some info => info.base_cost_per_unit_usd
  | none => 0

/-- `SubstitutionEngine.calculate_cost_impact`; the dollar/percent number
formatting inside the strings is elided, the branch structure is kept. -/
def calculate_cost_impact (eng : SubstitutionEngine)
    (original_ingredient substitute_ingredient : String) : String :=
  let original_cost := get_ingredient_price eng original_ingredient
  let substitute_cost := get_ingredient_price eng substitute_ingredient
  if original_cost = 0 ∨ substitute_cost = 0 then "Cost impact unknown"
  else
    let cost_diff := substitute_cost - original_cost
    if cost_diff > 0 then "more expensive"
    else if cost_diff < 0 then "cheaper"
    else "Same cost"

/-- `SubstitutionEngine.check_lead_time_improvement`; number formatting in
the strings elided, branch structure kept. -/
def check_lead_time_improvement (eng : SubstitutionEngine)
    (original_ingredient substitute_ingredient : String) : String :=
  match eng.ingredients_df.find? (fun i => i.ingredient == original_ingredient),
        eng.ingredients_df.find? (fun i => i.ingredient == substitute_ingredient) with
  | some original_info, some substitute_info =>
      let diff := substitute_info.lead_time_days - original_info.lead_time_days
      if diff < 0 then "faster delivery"
      else if diff > 0 then "slower delivery"
      else "Same lead time"
  | _, _ => "Lead time comparison unknown"

/-- One element of `find_substitutions`' output; `comparison` stands for the
`cost_impact` / `lead_time_improvement` field of the respective mode. -/
structure Substitution where
  original : String
  substitute : String
  context : String
  rationale : String
  comparison : String
  affected_dish : String
  dish_category : String
deriving DecidableEq

/-- The impact dict handed to `find_substitutions`, as a tagged variant of
the field-presence dispatch (`"affected_dishes" in impact` vs
`"at_risk_dishes" in impact`). -/
inductive ImpactAnalysis where
  | priceShock (affected_dishes : List DishImpact)
  | delayImpact (at_risk_dishes : List AtRiskDish)

/-- Dedup key: the triple `(original, substitute, context)`. -/
def subKey (s : Substitution) : String × String × String :=
  (s.original, s.substitute, s.context)

/-- The dedup loop of `find_substitutions`: `seen` set plus first-occurrence
retention. -/
def dedupSubs (seen : List (String × String × String)) :
    List Substitution → List Substitution
  | [] => []
  | s :: rest =>
      if subKey s ∈ seen then dedupSubs seen rest
      else s :: dedupSubs (subKey s :: seen) rest

/-- The `available_substitutions` list before dedup.  In the price-shock
mode `affected_ingredient` is the list the cost engine produces (the
scalar-coercion branch of the source handles non-engine inputs);
`if not ingredient: continue` skips empty-string ingredients. -/
def availableSubstitutions (eng : SubstitutionEngine)
    (impact_analysis : ImpactAnalysis) : List Substitution :=
  match impact_analysis with
  | .priceShock dishes =>
      dishes.flatMap (fun dish =>
        dish.affected_ingredient.flatMap (fun ingredient =>
          if ingredient = "" then []
          else
            (get_substitutions_for_ingredient eng ingredient (some dish.category)).map
              (fun rule =>
                { original := rule.original
                  substitute := rule.substitute
                  context := rule.context
                  rationale := rule.rationale
                  comparison := calculate_cost_impact eng rule.original rule.substitute
                  affected_dish := dish.name
                  dish_category := dish.category })))
  | .delayImpact dishes =>
      dishes.flatMap (fun dish =>
        if dish.affected_ingredient = "" then []
        else
          (get_substitutions_for_ingredient eng dish.affected_ingredient
              (some dish.category)).map
            (fun rule =>
              { original := rule.original
                substitute := rule.substitute
                context := rule.context
                rationale := rule.rationale
                comparison :=
                  check_lead_time_improvement eng rule.original rule.substitute
                affected_dish := dish.name
                dish_category := dish.category }))

/-- `SubstitutionEngine.find_substitutions`. -/
def find_substitutions (eng : SubstitutionEngine)
    (impact_analysis : ImpactAnalysis) : List Substitution :=
  dedupSubs [] (availableSubstitutions eng impact_analysis)

/-- Unit cost an ingredient contributes in the baseline join (0 for an
unknown ingredient, which the engine skips). -/
def unitCost (e : CostEngine) (ing : String) : ℚ :=
  ((findIngredient e ing).map (fun i => i.base_cost_per_unit_usd)).getD 0

/-- Distinct dishes that contain at least one shocked ingredient (the
spec-side reading of `total_dishes_affected`, used to state C4). -/
def dishesContainingShocked (e : CostEngine) (price_shocks : List Shock) : List String :=
  ((e.menu_bom_df.filter (fun b =>
      price_shocks.any (fun s => s.ingredient == b.ingredient))).map
    (fun b => b.menu_item)).dedup

/-! ## Dict lemmas -/

section DictLemmas

variable {β : Type}

theorem dictInsert_pos {d : List (String × β)} {k : String} (v : β)
    (hany : d.any (fun p => p.1 == k) = true) :
    dictInsert d k v = d.map (fun p => if p.1 == k then (k, v) else p) := by
  unfold dictInsert
  rw [if_pos hany]

theorem dictInsert_neg {d : List (String × β)} {k : String} (v : β)
    (hany : d.any (fun p => p.1 == k) = false) :
    dictInsert d k v = d ++ [(k, v)] := by
  unfold dictInsert
  rw [if_neg (by simp [hany])]

theorem find?_replace_ne {k j : String} (v : β) (h : j ≠ k) :
    ∀ d : List (String × β),
      List.find? (fun p => p.1 == j) (d.map (fun p => if p.1 == k then (k, v) else p)) =
        List.find? (fun p => p.1 == j) d := by
  intro d
  induction d with
  | nil => rfl
  | cons p rest ih =>
      rw [List.map_cons]
      by_cases hpk : p.1 = k
      · rw [if_pos (beq_iff_eq.mpr hpk)]
        rw [List.find?_cons_of_neg _ (by simp [Ne.symm h]),
            List.find?_cons_of_neg _ (by simp [hpk, Ne.symm h])]
        exact ih
      · rw [if_neg (by simp [hpk])]
        by_cases hpj : p.1 = j
        · rw [List.find?_cons_of_pos _ (by simp [hpj]),
              List.find?_cons_of_pos _ (by simp [hpj])]
        · rw [List.find?_cons_of_neg _ (by simp [hpj]),
              List.find?_cons_of_neg _ (by simp [hpj])]
          exact ih

theorem find?_replace_self {k : String} (v : β) :
    ∀ d : List (String × β), d.any (fun p => p.1 == k) = true →
      List.find? (fun p => p.1 == k) (d.map (fun p => if p.1 == k then (k, v) else p)) =
        some (k, v) := by
  intro d
  induction d with
  | nil => intro h; simp at h
  | cons p rest ih =>
      intro h
      rw [List.map_cons]
      by_cases hpk : p.1 = k
      · rw [if_pos (beq_iff_eq.mpr hpk)]
        rw [List.find?_cons_of_pos _ (by simp)]
      · rw [if_neg (by simp [hpk])]
        rw [List.find?_cons_of_neg _ (by simp [hpk])]
        apply ih
        simp only [List.any_cons, Bool.or_eq_true] at h
        rcases h with h | h
        · exact absurd (beq_iff_eq.mp h) hpk
        · exact h

theorem dictGet?_dictInsert (d : List (String × β)) (k j : String) (v : β) :
    dictGet? (dictInsert d k v) j = if j = k then some v else dictGet? d j := by
  cases hany : d.any (fun p => p.1 == k) with
  | true =>
      rw [dictInsert_pos v hany]
      unfold dictGet?
      by_cases hjk : j = k
      · subst hjk
        rw [find?_replace_self v d hany, if_pos rfl]
        rfl
      · rw [find?_replace_ne v hjk d, if_neg hjk]
  | false =>
      rw [dictInsert_neg v hany]
      unfold dictGet?
      rw [List.find?_append]
      by_cases hjk : j = k
      · subst hjk
        have hnone : List.find? (fun p => p.1 == j) d = none := by
          rw [List.find?_eq_none]
          intro p hp
          exact List.any_eq_false.mp hany p hp
        rw [hnone, if_pos rfl]
        simp
      · have h2 : List.find? (fun p => p.1 == j) [(k, v)] = none := by
          simp [Ne.symm hjk]
        rw [h2, if_neg hjk]
        simp

theorem mem_dictInsert {d : List (String × β)} {k : String} {v : β} {p : String × β}
    (h : p ∈ dictInsert d k v) : p ∈ d ∨ p = (k, v) := by
  cases hany : d.any (fun q => q.1 == k) with
  | true =>
      rw [dictInsert_pos v hany] at h
      rw [List.mem_map] at h
      obtain ⟨q, hq, hqp⟩ := h
      by_cases hqk : q.1 = k
      · right
        rw [if_pos (beq_iff_eq.mpr hqk)] at hqp
        exact hqp.symm
      · left
        rw [if_neg (by simp [hqk])] at hqp
        rwa [← hqp]
  | false =>
      rw [dictInsert_neg v hany] at h
      rw [List.mem_append, List.mem_singleton] at h
      exact h

theorem dictKeys_replace (d : List (String × β)) (k : String) (v : β) :
    dictKeys (d.map (fun p => if p.1 == k then (k, v) else p)) = dictKeys d := by
  unfold dictKeys
  rw [List.map_map]
  apply List.map_congr_left
  intro p _
  by_cases hpk : p.1 = k
  · rw [Function.comp_apply, if_pos (beq_iff_eq.mpr hpk), hpk]
  · rw [Function.comp_apply, if_neg (by simp [hpk])]

theorem mem_dictKeys_dictInsert {d : List (String × β)} {k : String} {v : β} {j : String} :
    j ∈ dictKeys (dictInsert d k v) ↔ j ∈ dictKeys d ∨ j = k := by
  cases hany : d.any (fun q => q.1 == k) with
  | true =>
      rw [dictInsert_pos v hany, dictKeys_replace]
      constructor
      · exact Or.inl
      · rintro (h | h)
        · exact h
        · subst h
          obtain ⟨q, hq, hqk⟩ := List.any_eq_true.mp hany
          unfold dictKeys
          rw [List.mem_map]
          exact ⟨q, hq, beq_iff_eq.mp hqk⟩
  | false =>
      rw [dictInsert_neg v hany]
      unfold dictKeys
      simp

theorem nodup_dictKeys_dictInsert {d : List (String × β)} {k : String} {v : β}
    (h : (dictKeys d).Nodup) : (dictKeys (dictInsert d k v)).Nodup := by
  cases hany : d.any (fun q => q.1 == k) with
  | true =>
      rwa [dictInsert_pos v hany, dictKeys_replace]
  | false =>
      rw [dictInsert_neg v hany]
      unfold dictKeys
      rw [List.map_append]
      apply List.Nodup.append h (by simp)
      intro a ha hb
      simp only [List.map_cons, List.map_nil, List.mem_singleton] at hb
      subst hb
      unfold dictKeys at ha
      rw [List.mem_map] at ha
      obtain ⟨q, hq, hqk⟩ := ha
      exact (List.any_eq_false.mp hany q hq) (by simp [hqk])

theorem mem_foldl_dictInsert :
    ∀ (l : List (String × β)) (acc : List (String × β)) (p : String × β),
      p ∈ l.foldl (fun d q => dictInsert d q.1 q.2) acc → p ∈ acc ∨ p ∈ l := by
  intro l
  induction l with
  | nil => intro acc p h; exact Or.inl h
  | cons q rest ih =>
      intro acc p h
      rw [List.foldl_cons] at h
      rcases ih (dictInsert acc q.1 q.2) p h with h1 | h1
      · rcases mem_dictInsert h1 with h2 | h2
        · exact Or.inl h2
        · right
          rw [h2]
          simp
      · right
        exact List.mem_cons_of_mem q h1

theorem mem_buildDict {l : List (String × β)} {p : String × β}
    (h : p ∈ buildDict l) : p ∈ l := by
  rcases mem_foldl_dictInsert l [] p h with h1 | h1
  · simp at h1
  · exact h1

theorem dictGet?_foldl_dictInsert :
    ∀ (l : List (String × β)) (acc : List (String × β)) (j : String),
      dictGet? (l.foldl (fun d q => dictInsert d q.1 q.2) acc) j =
        ((l.reverse.find? (fun p => p.1 == j)).map (fun p => p.2)).or (dictGet? acc j) := by
  intro l
  induction l with
  | nil => intro acc j; simp
  | cons q rest ih =>
      intro acc j
      rw [List.foldl_cons, ih (dictInsert acc q.1 q.2) j, dictGet?_dictInsert]
      rw [List.reverse_cons, List.find?_append]
      cases hr : rest.reverse.find? (fun p => p.1 == j) with
      | some p => simp
      | none =>
          simp only [Option.map_none, Option.none_or]
          by_cases hjq : j = q.1
          · subst hjq
            rw [if_pos rfl]
            simp
          · rw [if_neg hjq]
            have h1 : List.find? (fun p => p.1 == j) [(q.1, q.2)] = none := by
              simp [Ne.symm hjq]
            rw [h1]

theorem dictGet?_buildDict (l : List (String × β)) (j : String) :
    dictGet? (buildDict l) j = (l.reverse.find? (fun p => p.1 == j)).map (fun p => p.2) := by
  unfold buildDict
  rw [dictGet?_foldl_dictInsert]
  simp [dictGet?]

theorem mem_dictKeys_foldl_dictInsert :
    ∀ (l : List (String × β)) (acc : List (String × β)) (j : String),
      j ∈ dictKeys (l.foldl (fun d q => dictInsert d q.1 q.2) acc) ↔
        j ∈ dictKeys acc ∨ j ∈ l.map (fun p => p.1) := by
  intro l
  induction l with
  | nil => intro acc j; simp
  | cons q rest ih =>
      intro acc j
      rw [List.foldl_cons, ih (dictInsert acc q.1 q.2) j, mem_dictKeys_dictInsert]
      simp only [List.map_cons, List.mem_cons]
      tauto

theorem mem_dictKeys_buildDict {l : List (String × β)} {j : String} :
    j ∈ dictKeys (buildDict l) ↔ j ∈ l.map (fun p => p.1) := by
  unfold buildDict
  rw [mem_dictKeys_foldl_dictInsert]
  simp [dictKeys]

end DictLemmas

/-! ## Baseline-cost lemmas -/

theorem mem_foldl_baseline (e : CostEngine) :
    ∀ (menu : List MenuItem) (acc : List (String × DishCost)) (p : String × DishCost),
      p ∈ menu.foldl (fun acc row => dictInsert acc row.menu_item (mkDishCost e row)) acc →
        p ∈ acc ∨ ∃ row ∈ menu, p = (row.menu_item, mkDishCost e row) := by
  intro menu
  induction menu with
  | nil => intro acc p h; exact Or.inl h
  | cons row rest ih =>
      intro acc p h
      rw [List.foldl_cons] at h
      rcases ih _ p h with h1 | h1
      · rcases mem_dictInsert h1 with h2 | h2
        · exact Or.inl h2
        · exact Or.inr ⟨row, List.mem_cons_self row rest, h2⟩
      · obtain ⟨r, hr, hp⟩ := h1
        exact Or.inr ⟨r, List.mem_cons_of_mem row hr, hp⟩

theorem mem_calculate_baseline_costs {e : CostEngine} {m : String} {dc : DishCost}
    (h : (m, dc) ∈ calculate_baseline_costs e) :
    ∃ row ∈ e.menu_df, row.menu_item = m ∧ dc = mkDishCost e row := by
  rcases mem_foldl_baseline e e.menu_df [] (m, dc) h with h1 | h1
  · simp at h1
  · obtain ⟨row, hrow, hp⟩ := h1
    rw [Prod.mk.injEq] at hp
    exact ⟨row, hrow, hp.1.symm, hp.2⟩

theorem bomFold_fst (e : CostEngine) :
    ∀ (rows : List BOMEntry) (acc : ℚ × List (String × IngredientDetail)),
      (∀ b ∈ rows, (findIngredient e b.ingredient).isSome) →
      (rows.foldl (bomStep e) acc).1 =
        acc.1 + (rows.map (fun b => b.qty * unitCost e b.ingredient)).sum := by
  intro rows
  induction rows with
  | nil => intro acc _; simp
  | cons b rest ih =>
      intro acc hknown
      have hb := hknown b (List.mem_cons_self b rest)
      obtain ⟨info, hinfo⟩ := Option.isSome_iff_exists.mp hb
      rw [List.foldl_cons]
      rw [ih _ (fun x hx => hknown x (List.mem_cons_of_mem b hx))]
      have hstep : (bomStep e acc b).1 = acc.1 + b.qty * info.base_cost_per_unit_usd := by
        unfold bomStep
        rw [hinfo]
      have hu : unitCost e b.ingredient = info.base_cost_per_unit_usd := by
        unfold unitCost
        rw [hinfo]
        rfl
      rw [hstep, List.map_cons, List.sum_cons, hu]
      ring

/-- C1: for every entry of the baseline-cost map whose dish references only
known ingredients in its BOM rows, `ingredient_cost` is exactly the sum of
`qty × unit_cost` over those BOM rows, and `cost_percentage` is
`ingredient_cost / menu_price × 100` when `menu_price > 0` and `0`
otherwise (the division is guarded, never a fault). -/
theorem baseline_cost_formula (e : CostEngine) (m : String) (dc : DishCost)
    (hmem : (m, dc) ∈ calculate_baseline_costs e)
    (hknown : ∀ b ∈ e.menu_bom_df, b.menu_item = m → (findIngredient e b.ingredient).isSome) :
    dc.ingredient_cost =
      ((e.menu_bom_df.filter (fun b => b.menu_item == m)).map
        (fun b => b.qty * unitCost e b.ingredient)).sum ∧
    dc.cost_percentage =
      (if dc.menu_price > 0 then dc.ingredient_cost / dc.menu_price * 100 else 0) := by
  obtain ⟨row, hrow, hname, hdc⟩ := mem_calculate_baseline_costs hmem
  subst hdc
  constructor
  · show (ingredientCostAndDetails e row.menu_item).1 = _
    unfold ingredientCostAndDetails bomRowsFor
    rw [hname]
    rw [bomFold_fst e _ (0, [])]
    · simp
    · intro b hb
      rw [List.mem_filter] at hb
      exact hknown b hb.1 (beq_iff_eq.mp hb.2)
  · simp only [mkDishCost]

/-- Witness inputs: the spec's end-to-end example (tomato_sauce at $2,
qty 3, Margherita at $12). -/
def iTom : Ingredient :=
  { ingredient := "tomato_sauce", base_cost_per_unit_usd := 2, lead_time_days := 3,
    supplier := "FreshCo" }

def mMarg : MenuItem :=
  { menu_item := "Margherita", price_usd := 12, category := "pizza" }

def bMarg : BOMEntry :=
  { menu_item := "Margherita", ingredient := "tomato_sauce", qty := 3, unit := "cup" }

def engW : CostEngine :=
  { ingredients_df := [iTom], menu_df := [mMarg], menu_bom_df := [bMarg],
    MONTHLY_SALES_PER_DISH := 100, LEAD_TIME_THRESHOLD := 5 }

/-- Witness for C1 at the concrete Margherita engine. -/
theorem baseline_cost_formula_witness :
    (("Margherita", mkDishCost engW mMarg) ∈ calculate_baseline_costs engW) ∧
    ((mkDishCost engW mMarg).ingredient_cost =
      ((engW.menu_bom_df.filter (fun b => b.menu_item == "Margherita")).map
        (fun b => b.qty * unitCost engW b.ingredient)).sum ∧
     (mkDishCost engW mMarg).cost_percentage =
      (if (mkDishCost engW mMarg).menu_price > 0 then
        (mkDishCost engW mMarg).ingredient_cost / (mkDishCost engW mMarg).menu_price * 100
       else 0)) := by
  have hmem : ("Margherita", mkDishCost engW mMarg) ∈ calculate_baseline_costs engW := by
    have : calculate_baseline_costs engW = [("Margherita", mkDishCost engW mMarg)] := by
      show dictInsert [] mMarg.menu_item (mkDishCost engW mMarg) = _
      rfl
    rw [this]
    simp
  have hknown : ∀ b ∈ engW.menu_bom_df, b.menu_item = "Margherita" →
      (findIngredient engW b.ingredient).isSome := by
    intro b hb _
    have hb1 : b = bMarg := by
      simpa [engW] using hb
    subst hb1
    rfl
  exact ⟨hmem, baseline_cost_formula engW "Margherita" (mkDishCost engW mMarg) hmem hknown⟩

/-- C2: the baseline-cost map is a pure function of the three relations —
two engine objects agreeing on `ingredients_df`, `menu_df` and
`menu_bom_df` (even with different business-assumption attributes, and with
no other state in existence) produce identical `DishCostBreakdown` maps. -/
theorem baseline_pure (e₁ e₂ : CostEngine)
    (hi : e₁.ingredients_df = e₂.ingredients_df)
    (hm : e₁.menu_df = e₂.menu_df)
    (hb : e₁.menu_bom_df = e₂.menu_bom_df) :
    calculate_baseline_costs e₁ = calculate_baseline_costs e₂ := by
  cases e₁
  cases e₂
  simp only at hi hm hb
  subst hi
  subst hm
  subst hb
  rfl

/-- Engine with the same relations as `engW` but different assumption
attributes, for the C2 witness. -/
def engW2 : CostEngine :=
  { engW with MONTHLY_SALES_PER_DISH := 42, LEAD_TIME_THRESHOLD := 9 }

/-- Witness for C2: two concrete engines with equal relations but different
assumption attributes yield the same baseline map. -/
theorem baseline_pure_witness :
    engW.ingredients_df = engW2.ingredients_df ∧
    engW.menu_df = engW2.menu_df ∧
    engW.menu_bom_df = engW2.menu_bom_df ∧
    calculate_baseline_costs engW = calculate_baseline_costs engW2 :=
  ⟨rfl, rfl, rfl, baseline_pure engW engW2 rfl rfl rfl⟩

/-! ## Price-shock lemmas -/

theorem aps_affected (e : CostEngine) (s : List Shock) :
    (apply_price_shocks e s).affected_dishes =
      List.insertionSort byMonthlyDesc
        (dishImpacts e (buildDict (s.map (fun x => (x.ingredient, x.pct))))) := rfl

theorem aps_most (e : CostEngine) (s : List Shock) :
    (apply_price_shocks e s).most_impacted_dishes =
      (apply_price_shocks e s).affected_dishes.take 5 := rfl

theorem aps_total (e : CostEngine) (s : List Shock) :
    (apply_price_shocks e s).total_monthly_increase =
      ((dishImpacts e (buildDict (s.map (fun x => (x.ingredient, x.pct))))).map
        (fun d => d.monthly_impact)).sum := rfl

theorem aps_count (e : CostEngine) (s : List Shock) :
    (apply_price_shocks e s).total_dishes_affected =
      (affectedDishNames e (buildDict (s.map (fun x => (x.ingredient, x.pct))))).length := rfl

theorem impactFor_eq_some {e : CostEngine} {dict : List (String × ℚ)} {n : String}
    {d : DishImpact} (h : impactFor e dict n = some d) :
    ∃ a, calculate_dish_cost e n (some dict) = some a ∧
      a.total_cost_increase > 0 ∧ d = mkDishImpact e a := by
  cases hcd : calculate_dish_cost e n (some dict) with
  | none =>
      simp only [impactFor, hcd] at h
      exact Option.noConfusion h
  | some a =>
      simp only [impactFor, hcd] at h
      by_cases hpos : a.total_cost_increase > 0
      · rw [if_pos hpos] at h
        exact ⟨a, rfl, hpos, (Option.some.inj h).symm⟩
      · rw [if_neg hpos] at h
        exact Option.noConfusion h

theorem dictGet?_baseline_mem {e : CostEngine} {n : String} {dish_data : DishCost}
    (h : dictGet? (calculate_baseline_costs e) n = some dish_data) :
    (n, dish_data) ∈ calculate_baseline_costs e := by
  unfold dictGet? at h
  cases hf : (calculate_baseline_costs e).find? (fun p => p.1 == n) with
  | none => rw [hf] at h; simp at h
  | some q =>
      rw [hf] at h
      simp only [Option.map_some', Option.some.injEq] at h
      have hq := List.mem_of_find?_eq_some hf
      have hqb := List.find?_some hf
      have hq1 : q.1 = n := by simpa using hqb
      have hqe : q = (n, dish_data) := by
        cases q
        simp only at hq1 h
        rw [hq1, h]
      rwa [hqe] at hq

/-- Sum of the `total_cost` values of an `ingredient_details` dict. -/
def sumVals (d : List (String × IngredientDetail)) : ℚ :=
  (d.map (fun p => p.2.total_cost)).sum

theorem sumVals_dictInsert_le {k : String} (v : IngredientDetail) :
    ∀ d : List (String × IngredientDetail), (dictKeys d).Nodup →
      (∀ p ∈ d, 0 ≤ p.2.total_cost) →
      sumVals (dictInsert d k v) ≤ sumVals d + v.total_cost := by
  intro d
  induction d with
  | nil =>
      intro _ _
      rw [dictInsert_neg v (by simp)]
      simp [sumVals]
  | cons p rest ih =>
      intro hnodup hnn
      have hnodup_rest : (dictKeys rest).Nodup := by
        unfold dictKeys at hnodup ⊢
        exact (List.nodup_cons.mp hnodup).2
      have hnn_rest : ∀ q ∈ rest, 0 ≤ q.2.total_cost :=
        fun q hq => hnn q (List.mem_cons_of_mem p hq)
      by_cases hpk : p.1 = k
      · have hany : ((p :: rest).any (fun q => q.1 == k)) = true := by
          simp [hpk]
        rw [dictInsert_pos v hany, List.map_cons, if_pos (beq_iff_eq.mpr hpk)]
        have hknot : k ∉ dictKeys rest := by
          unfold dictKeys at hnodup ⊢
          rw [← hpk]
          exact (List.nodup_cons.mp hnodup).1
        have hmap : rest.map (fun q => if q.1 == k then (k, v) else q) = rest := by
          have hfix : ∀ q ∈ rest, (if q.1 == k then (k, v) else q) = id q := by
            intro q hq
            have hneg : ¬((q.1 == k) = true) := by
              simp only [beq_iff_eq]
              intro hqk
              exact hknot (by unfold dictKeys; rw [List.mem_map]; exact ⟨q, hq, hqk⟩)
            rw [if_neg hneg]
            rfl
          rw [List.map_congr_left hfix, List.map_id]
        rw [hmap]
        have hp0 : 0 ≤ p.2.total_cost := hnn p (List.mem_cons_self p rest)
        simp only [sumVals, List.map_cons, List.sum_cons]
        linarith
      · cases hany2 : rest.any (fun q => q.1 == k) with
        | false =>
            have hany : ((p :: rest).any (fun q => q.1 == k)) = false := by
              simp only [List.any_cons, Bool.or_eq_false_iff]
              exact ⟨by simp [hpk], hany2⟩
            rw [dictInsert_neg v hany]
            exact le_of_eq (by
              simp only [sumVals, List.map_append, List.sum_append, List.map_cons,
                List.map_nil, List.sum_cons, List.sum_nil]
              ring)
        | true =>
            have hany : ((p :: rest).any (fun q => q.1 == k)) = true := by
              simp [hany2]
            rw [dictInsert_pos v hany, List.map_cons, if_neg (by simp [hpk])]
            have hrest : rest.map (fun q => if q.1 == k then (k, v) else q) =
                dictInsert rest k v := (dictInsert_pos v hany2).symm
            rw [hrest]
            have := ih hnodup_rest hnn_rest
            simp only [sumVals, List.map_cons, List.sum_cons] at *
            linarith

theorem bomFold_invariant (e : CostEngine)
    (hcost : ∀ i ∈ e.ingredients_df, 0 ≤ i.base_cost_per_unit_usd) :
    ∀ (rows : List BOMEntry) (acc : ℚ × List (String × IngredientDetail)),
      (∀ b ∈ rows, 0 ≤ b.qty) →
      sumVals acc.2 ≤ acc.1 →
      (∀ p ∈ acc.2, 0 ≤ p.2.total_cost) →
      (dictKeys acc.2).Nodup →
      sumVals (rows.foldl (bomStep e) acc).2 ≤ (rows.foldl (bomStep e) acc).1 ∧
      (∀ p ∈ (rows.foldl (bomStep e) acc).2, 0 ≤ p.2.total_cost) ∧
      (dictKeys (rows.foldl (bomStep e) acc).2).Nodup := by
  intro rows
  induction rows with
  | nil => intro acc _ h1 h2 h3; exact ⟨h1, h2, h3⟩
  | cons b rest ih =>
      intro acc hqty h1 h2 h3
      rw [List.foldl_cons]
      have hqty_rest : ∀ x ∈ rest, 0 ≤ x.qty :=
        fun x hx => hqty x (List.mem_cons_of_mem b hx)
      cases hfi : findIngredient e b.ingredient with
      | none =>
          have hstep : bomStep e acc b = acc := by
            unfold bomStep
            rw [hfi]
          rw [hstep]
          exact ih acc hqty_rest h1 h2 h3
      | some info =>
          have hstep : bomStep e acc b =
              (acc.1 + b.qty * info.base_cost_per_unit_usd,
                dictInsert acc.2 b.ingredient
                  ⟨b.qty, info.base_cost_per_unit_usd,
                    b.qty * info.base_cost_per_unit_usd, b.unit⟩) := by
            unfold bomStep
            rw [hfi]
          rw [hstep]
          have hv : (0:ℚ) ≤ b.qty * info.base_cost_per_unit_usd := by
            apply mul_nonneg (hqty b (List.mem_cons_self b rest))
            exact hcost info (List.mem_of_find?_eq_some hfi)
          apply ih
          · exact hqty_rest
          · calc sumVals (dictInsert acc.2 b.ingredient _)
                ≤ sumVals acc.2 + b.qty * info.base_cost_per_unit_usd :=
                  sumVals_dictInsert_le _ acc.2 h3 h2
              _ ≤ acc.1 + b.qty * info.base_cost_per_unit_usd := by linarith
          · intro p hp
            rcases mem_dictInsert hp with hin | heq
            · exact h2 p hin
            · rw [heq]
              exact hv
          · exact nodup_dictKeys_dictInsert h3

theorem sumVals_le_ingredient_cost (e : CostEngine) (m : String)
    (hqty : ∀ b ∈ e.menu_bom_df, 0 ≤ b.qty)
    (hcost : ∀ i ∈ e.ingredients_df, 0 ≤ i.base_cost_per_unit_usd) :
    sumVals (ingredientCostAndDetails e m).2 ≤ (ingredientCostAndDetails e m).1 := by
  unfold ingredientCostAndDetails
  have := bomFold_invariant e hcost (bomRowsFor e m) (0, [])
    (fun b hb => hqty b (List.mem_filter.mp hb).1)
    (by simp [sumVals]) (by simp) (by simp [dictKeys])
  exact this.1

theorem shockAdjustedItem_zero {dict : List (String × ℚ)}
    (hzero : ∀ p ∈ dict, p.2 = 0) (p : String × IngredientDetail) :
    (shockAdjustedItem dict p).new_cost = p.2.total_cost := by
  have hpct : (dictGet? dict p.1).getD 0 = 0 := by
    cases hg : dictGet? dict p.1 with
    | none => rfl
    | some v =>
        unfold dictGet? at hg
        cases hfind : dict.find? (fun q => q.1 == p.1) with
        | none => rw [hfind] at hg; simp at hg
        | some q =>
            rw [hfind] at hg
            simp only [Option.map_some', Option.some.injEq] at hg
            have hq0 := hzero q (List.mem_of_find?_eq_some hfind)
            simp only [Option.getD_some]
            rw [← hg, hq0]
  simp only [shockAdjustedItem, hpct]
  ring

theorem calculate_dish_cost_zero_shock_le (e : CostEngine) (n : String)
    (dict : List (String × ℚ)) (a : DishAnalysis)
    (hcd : calculate_dish_cost e n (some dict) = some a)
    (hzero : ∀ p ∈ dict, p.2 = 0)
    (hqty : ∀ b ∈ e.menu_bom_df, 0 ≤ b.qty)
    (hcost : ∀ i ∈ e.ingredients_df, 0 ≤ i.base_cost_per_unit_usd) :
    a.total_cost_increase ≤ 0 := by
  cases hget : dictGet? (calculate_baseline_costs e) n with
  | none =>
      simp only [calculate_dish_cost, hget] at hcd
      exact Option.noConfusion hcd
  | some dish_data =>
      simp only [calculate_dish_cost, hget] at hcd
      obtain ⟨row, _, _, hrow⟩ := mem_calculate_baseline_costs (dictGet?_baseline_mem hget)
      by_cases hde : dict.isEmpty
      · rw [if_pos hde] at hcd
        have ha := Option.some.inj hcd
        rw [← ha]
        simp [mkDishAnalysis]
      · rw [if_neg hde] at hcd
        have ha := Option.some.inj hcd
        rw [← ha]
        have hsum : ((dish_data.ingredients.map (shockAdjustedItem dict)).map
            (fun c => c.new_cost)).sum = sumVals dish_data.ingredients := by
          rw [List.map_map]
          unfold sumVals
          congr 1
          apply List.map_congr_left
          intro p _
          exact shockAdjustedItem_zero hzero p
        have hle : sumVals dish_data.ingredients ≤ dish_data.ingredient_cost := by
          rw [hrow]
          show sumVals (ingredientCostAndDetails e row.menu_item).2 ≤
            (ingredientCostAndDetails e row.menu_item).1
          exact sumVals_le_ingredient_cost e row.menu_item hqty hcost
        simp only [mkDishAnalysis, hsum]
        linarith

/-- C3: a dish appears in `affected_dishes` only when its recomputed cost
strictly exceeded its baseline cost; and for a shock list whose every `pct`
is 0 (quantities and unit costs being nonnegative, per the data model) the
output has `total_monthly_increase = 0` and an empty `affected_dishes`. -/
theorem shock_affected_strictly_increases :
    (∀ (e : CostEngine) (shocks : List Shock) (d : DishImpact),
        d ∈ (apply_price_shocks e shocks).affected_dishes → d.cost_increase > 0) ∧
    (∀ (e : CostEngine) (shocks : List Shock),
        (∀ b ∈ e.menu_bom_df, 0 ≤ b.qty) →
        (∀ i ∈ e.ingredients_df, 0 ≤ i.base_cost_per_unit_usd) →
        (∀ s ∈ shocks, s.pct = 0) →
        (apply_price_shocks e shocks).total_monthly_increase = 0 ∧
        (apply_price_shocks e shocks).affected_dishes = []) := by
  constructor
  · intro e shocks d hd
    rw [aps_affected, List.mem_insertionSort] at hd
    unfold dishImpacts at hd
    rw [List.mem_filterMap] at hd
    obtain ⟨n, _, hf⟩ := hd
    obtain ⟨a, _, hpos, hda⟩ := impactFor_eq_some hf
    rw [hda]
    exact hpos
  · intro e shocks hqty hcost hzero
    have hdictzero :
        ∀ p ∈ buildDict (shocks.map (fun s => (s.ingredient, s.pct))), p.2 = 0 := by
      intro p hp
      have hmem := mem_buildDict hp
      rw [List.mem_map] at hmem
      obtain ⟨s, hs, hps⟩ := hmem
      rw [← hps]
      exact hzero s hs
    have himp :
        dishImpacts e (buildDict (shocks.map (fun s => (s.ingredient, s.pct)))) = [] := by
      unfold dishImpacts
      rw [List.filterMap_eq_nil_iff]
      intro n _
      cases hcd : calculate_dish_cost e n
          (some (buildDict (shocks.map (fun s => (s.ingredient, s.pct))))) with
      | none => simp [impactFor, hcd]
      | some a =>
          have hle := calculate_dish_cost_zero_shock_le e n _ a hcd hdictzero hqty hcost
          simp only [impactFor, hcd]
          rw [if_neg (not_lt.mpr hle)]
    constructor
    · rw [aps_total, himp]
      rfl
    · rw [aps_affected, himp]
      rfl

/-- C5: `affected_dishes` is sorted descending by `monthly_impact`, and
`most_impacted_dishes` is exactly the first `min 5 N` elements of it. -/
theorem affected_dishes_sorted_take5 (e : CostEngine) (shocks : List Shock) :
    List.Sorted (fun a b : DishImpact => b.monthly_impact ≤ a.monthly_impact)
      (apply_price_shocks e shocks).affected_dishes ∧
    (apply_price_shocks e shocks).most_impacted_dishes =
      (apply_price_shocks e shocks).affected_dishes.take 5 ∧
    (apply_price_shocks e shocks).most_impacted_dishes.length =
      min 5 (apply_price_shocks e shocks).affected_dishes.length := by
  refine ⟨?_, rfl, ?_⟩
  · rw [aps_affected]
    exact List.sorted_insertionSort byMonthlyDesc _
  · rw [aps_most, List.length_take]

/-- C4 (amended): `total_monthly_increase` is the sum of `monthly_impact`
over the whole `affected_dishes` list (not just the top 5), but
`total_dishes_affected` counts the distinct dishes that contain at least
one shocked ingredient — the pre-filter candidate set — not the dishes in
the returned `affected_dishes` list. -/
theorem total_monthly_sum_and_candidate_count (e : CostEngine) (shocks : List Shock) :
    (apply_price_shocks e shocks).total_monthly_increase =
      (((apply_price_shocks e shocks).affected_dishes).map (fun d => d.monthly_impact)).sum ∧
    (apply_price_shocks e shocks).total_dishes_affected =
      (dishesContainingShocked e shocks).length := by
  constructor
  · rw [aps_total, aps_affected]
    exact (((List.perm_insertionSort byMonthlyDesc _).map
      (fun d => d.monthly_impact)).sum_eq).symm
  · rw [aps_count]
    apply List.Perm.length_eq
    unfold affectedDishNames dishesContainingShocked get_dishes_with_ingredient
    rw [List.perm_ext_iff_of_nodup (List.nodup_dedup _) (List.nodup_dedup _)]
    intro x
    rw [List.mem_dedup, List.mem_dedup, List.mem_flatMap, List.mem_map]
    constructor
    · rintro ⟨ing, hing, hx⟩
      rw [mem_dictKeys_buildDict, List.mem_map] at hing
      obtain ⟨q, hq, hqing⟩ := hing
      rw [List.mem_map] at hq
      obtain ⟨s, hs, hsq⟩ := hq
      rw [List.mem_dedup, List.mem_map] at hx
      obtain ⟨b, hb, hbx⟩ := hx
      rw [List.mem_filter] at hb
      refine ⟨b, List.mem_filter.mpr ⟨hb.1, ?_⟩, hbx⟩
      rw [List.any_eq_true]
      refine ⟨s, hs, ?_⟩
      have h1 : s.ingredient = ing := by
        rw [← hsq] at hqing
        exact hqing
      have h2 : b.ingredient = ing := by simpa using hb.2
      rw [beq_iff_eq, h1, h2]
    · rintro ⟨b, hb, hbx⟩
      rw [List.mem_filter, List.any_eq_true] at hb
      obtain ⟨hbmem, s, hs, hsb⟩ := hb
      refine ⟨b.ingredient, ?_, ?_⟩
      · rw [mem_dictKeys_buildDict, List.mem_map]
        refine ⟨(s.ingredient, s.pct), ?_, ?_⟩
        · rw [List.mem_map]
          exact ⟨s, hs, rfl⟩
        · simpa using hsb
      · rw [List.mem_dedup, List.mem_map]
        exact ⟨b, List.mem_filter.mpr ⟨hbmem, by simp⟩, hbx⟩

def sh50 : List Shock := [⟨"tomato_sauce", 50⟩]

def shZero : List Shock := [⟨"tomato_sauce", 0⟩]

def impW : DishImpact :=
  { name := "Margherita", category := "pizza", cost_increase := 3,
    percentage_increase := 50, monthly_impact := 300,
    affected_ingredient := ["tomato_sauce"], menu_price := 12 }

theorem engW_bom : engW.menu_bom_df = [bMarg] := rfl

theorem engW_menu : engW.menu_df = [mMarg] := rfl

theorem engW_ings : engW.ingredients_df = [iTom] := rfl

theorem engW_monthly : engW.MONTHLY_SALES_PER_DISH = 100 := rfl

theorem engW_dict50 : buildDict (sh50.map (fun s => (s.ingredient, s.pct))) =
    [("tomato_sauce", (50:ℚ))] := by
  simp [sh50, buildDict, dictInsert]

theorem engW_baseline : calculate_baseline_costs engW =
    [("Margherita", mkDishCost engW mMarg)] := by
  show dictInsert [] mMarg.menu_item (mkDishCost engW mMarg) = _
  rfl

theorem engW_dishcost : mkDishCost engW mMarg =
    { menu_price := 12, ingredient_cost := 6, cost_percentage := 50,
      category := "pizza", ingredients := [("tomato_sauce", ⟨3, 2, 6, "cup"⟩)] } := by
  unfold mkDishCost ingredientCostAndDetails bomRowsFor bomStep findIngredient
  norm_num [engW_bom, engW_ings, mMarg, bMarg, iTom, dictInsert]

def cbW : CostBreakdownItem :=
  { ingredient := "tomato_sauce", quantity := 3, unit := "cup", base_unit_price := 2,
    new_unit_price := 3, base_cost := 6, new_cost := 9, cost_increase := 3, shock_pct := 50 }

def anaW : DishAnalysis :=
  { dish_name := "Margherita", menu_price := 12, category := "pizza",
    total_base_cost := 6, total_new_cost := 9, total_cost_increase := 3,
    cost_increase_pct := 50, cost_to_price := 1/2, cost_breakdown := [cbW] }

theorem engW_cd50 : calculate_dish_cost engW "Margherita" (some [("tomato_sauce", (50:ℚ))]) =
    some anaW := by
  norm_num [calculate_dish_cost, engW_baseline, engW_dishcost, dictGet?,
    shockAdjustedItem, mkDishAnalysis, anaW, cbW]

theorem engW_if50 : impactFor engW [("tomato_sauce", (50:ℚ))] "Margherita" = some impW := by
  norm_num [impactFor, engW_cd50, mkDishImpact, anaW, cbW, impW, engW_monthly]

theorem engW_sh50_affected : (apply_price_shocks engW sh50).affected_dishes = [impW] := by
  rw [aps_affected, engW_dict50]
  have hnames : affectedDishNames engW [("tomato_sauce", (50:ℚ))] = ["Margherita"] := by
    norm_num [affectedDishNames, dictKeys, get_dishes_with_ingredient, engW_bom, bMarg]
  unfold dishImpacts
  rw [hnames, List.filterMap_cons]
  norm_num [engW_if50, List.insertionSort, List.orderedInsert]

theorem engW_dictZero : buildDict (shZero.map (fun s => (s.ingredient, s.pct))) =
    [("tomato_sauce", (0:ℚ))] := by
  simp [shZero, buildDict, dictInsert]

def cbZ : CostBreakdownItem :=
  { ingredient := "tomato_sauce", quantity := 3, unit := "cup", base_unit_price := 2,
    new_unit_price := 2, base_cost := 6, new_cost := 6, cost_increase := 0, shock_pct := 0 }

def anaZ : DishAnalysis :=
  { dish_name := "Margherita", menu_price := 12, category := "pizza",
    total_base_cost := 6, total_new_cost := 6, total_cost_increase := 0,
    cost_increase_pct := 0, cost_to_price := 1/2, cost_breakdown := [cbZ] }

theorem engW_cdZero : calculate_dish_cost engW "Margherita" (some [("tomato_sauce", (0:ℚ))]) =
    some anaZ := by
  norm_num [calculate_dish_cost, engW_baseline, engW_dishcost, dictGet?,
    shockAdjustedItem, mkDishAnalysis, anaZ, cbZ]

theorem engW_ifZero : impactFor engW [("tomato_sauce", (0:ℚ))] "Margherita" = none := by
  norm_num [impactFor, engW_cdZero, anaZ]

theorem engW_namesZero : affectedDishNames engW [("tomato_sauce", (0:ℚ))] = ["Margherita"] := by
  norm_num [affectedDishNames, dictKeys, get_dishes_with_ingredient, engW_bom, bMarg]

theorem engW_shZero_affected : (apply_price_shocks engW shZero).affected_dishes = [] := by
  rw [aps_affected, engW_dictZero]
  unfold dishImpacts
  rw [engW_namesZero, List.filterMap_cons]
  norm_num [engW_ifZero]

theorem engW_shZero_total : (apply_price_shocks engW shZero).total_monthly_increase = 0 := by
  rw [aps_total, engW_dictZero]
  unfold dishImpacts
  rw [engW_namesZero, List.filterMap_cons]
  norm_num [engW_ifZero]

theorem engW_shZero_count : (apply_price_shocks engW shZero).total_dishes_affected = 1 := by
  rw [aps_count, engW_dictZero, engW_namesZero]
  rfl

theorem shock_affected_strictly_increases_witness :
    impW.cost_increase > 0 ∧
    (apply_price_shocks engW shZero).total_monthly_increase = 0 ∧
    (apply_price_shocks engW shZero).affected_dishes = [] := by
  have hmem : impW ∈ (apply_price_shocks engW sh50).affected_dishes := by
    rw [engW_sh50_affected]
    simp
  have h1 := shock_affected_strictly_increases.1 engW sh50 impW hmem
  have h2 := shock_affected_strictly_increases.2 engW shZero
    (by
      intro b hb
      rw [engW_bom, List.mem_singleton] at hb
      rw [hb]
      norm_num [bMarg])
    (by
      intro i hi
      rw [engW_ings, List.mem_singleton] at hi
      rw [hi]
      norm_num [iTom])
    (by
      intro s hs
      simp only [shZero, List.mem_singleton] at hs
      rw [hs])
  exact ⟨h1, h2.1, h2.2⟩

theorem total_dishes_affected_counterexample :
    (apply_price_shocks engW shZero).total_dishes_affected ≠
      (apply_price_shocks engW shZero).affected_dishes.length := by
  rw [engW_shZero_count, engW_shZero_affected]
  decide

/-! ## Supply-delay lemmas -/

theorem asd_risks (e : CostEngine) (delays : List Delay) (t : Int) :
    (analyze_supply_delays e delays t).supply_risks =
      List.insertionSort byRiskDesc (supplyRisksRaw e delays t) := rfl

theorem asd_at_risk (e : CostEngine) (delays : List Delay) (t : Int) :
    (analyze_supply_delays e delays t).at_risk_dishes =
      atRiskDishes e (List.insertionSort byRiskDesc (supplyRisksRaw e delays t)) := rfl

theorem asd_delays_analyzed (e : CostEngine) (delays : List Delay) (t : Int) :
    (analyze_supply_delays e delays t).delays_analyzed =
      buildDict (delays.map (fun d => (d.ingredient, d.extra_days))) := rfl

theorem mem_supplyRisksRaw {e : CostEngine} {delays : List Delay} {t : Int}
    {r : SupplyRisk} (h : r ∈ supplyRisksRaw e delays t) :
    ∃ d ∈ delays, ∃ info, findIngredient e d.ingredient = some info ∧
      r = mkSupplyRisk e t d info := by
  unfold supplyRisksRaw at h
  rw [List.mem_filterMap] at h
  obtain ⟨d, hd, hf⟩ := h
  cases hfi : findIngredient e d.ingredient with
  | none => rw [hfi] at hf; exact Option.noConfusion hf
  | some info =>
      rw [hfi] at hf
      exact ⟨d, hd, info, hfi, (Option.some.inj hf).symm⟩

/-- Ingredient for the delay-analysis examples: base lead time 3 days. -/
def iBasil : Ingredient :=
  { ingredient := "basil", base_cost_per_unit_usd := 1, lead_time_days := 3,
    supplier := "HerbCo" }

/-- Engine for the delay-analysis examples. -/
def engD : CostEngine :=
  { ingredients_df := [iBasil], menu_df := [mMarg],
    menu_bom_df := [{ menu_item := "Margherita", ingredient := "basil", qty := 1, unit := "g" }],
    MONTHLY_SALES_PER_DISH := 100, LEAD_TIME_THRESHOLD := 5 }

/-- C6: every supply-risk entry produced for a delay entry with a known
ingredient carries risk tier HIGH when `base + extra > threshold`, else
MEDIUM when `extra > 2`, else LOW; in particular base lead 3, extra 3,
threshold 5 is HIGH and base lead 3, extra 1, threshold 5 is LOW. -/
theorem risk_tier_rule :
    (∀ (e : CostEngine) (delays : List Delay) (t : Int) (d : Delay) (info : Ingredient),
        d ∈ delays → findIngredient e d.ingredient = some info →
        ∃ r ∈ (analyze_supply_delays e delays t).supply_risks,
          r.ingredient = d.ingredient ∧
          r.base_lead_time_days = info.lead_time_days ∧
          r.new_lead_time_days = info.lead_time_days + d.extra_days ∧
          r.risk_level = (if info.lead_time_days + d.extra_days > t then "HIGH"
            else if d.extra_days > 2 then "MEDIUM" else "LOW")) ∧
    ((analyze_supply_delays engD [⟨"basil", 3⟩] 5).supply_risks.map
        (fun r => r.risk_level) = ["HIGH"]) ∧
    ((analyze_supply_delays engD [⟨"basil", 1⟩] 5).supply_risks.map
        (fun r => r.risk_level) = ["LOW"]) := by
  refine ⟨?_, by decide, by decide⟩
  intro e delays t d info hd hfi
  refine ⟨mkSupplyRisk e t d info, ?_, rfl, rfl, rfl, rfl⟩
  rw [asd_risks, List.mem_insertionSort]
  unfold supplyRisksRaw
  rw [List.mem_filterMap]
  refine ⟨d, hd, ?_⟩
  rw [hfi]

/-- Witness for C6 at the concrete basil engine. -/
theorem risk_tier_rule_witness :
    ((⟨"basil", 3⟩ : Delay) ∈ [(⟨"basil", 3⟩ : Delay)]) ∧
    findIngredient engD "basil" = some iBasil ∧
    ∃ r ∈ (analyze_supply_delays engD [⟨"basil", 3⟩] 5).supply_risks,
      r.ingredient = "basil" ∧
      r.base_lead_time_days = iBasil.lead_time_days ∧
      r.new_lead_time_days = iBasil.lead_time_days + 3 ∧
      r.risk_level = (if iBasil.lead_time_days + 3 > 5 then "HIGH"
        else if (3:Int) > 2 then "MEDIUM" else "LOW") := by
  refine ⟨by simp, by decide, ?_⟩
  exact risk_tier_rule.1 engD [⟨"basil", 3⟩] 5 ⟨"basil", 3⟩ iBasil (by simp) (by decide)

theorem risk_priority_le_three (s : String) : risk_priority s ≤ 3 := by
  unfold risk_priority
  split_ifs <;> omega

theorem risk_priority_eq_three {s : String} (h : risk_priority s = 3) : s = "HIGH" := by
  unfold risk_priority at h
  by_cases h1 : s = "HIGH"
  · exact h1
  · rw [if_neg (by simp [h1])] at h
    by_cases h2 : s = "MEDIUM"
    · rw [if_pos (by simp [h2])] at h
      omega
    · rw [if_neg (by simp [h2])] at h
      omega

theorem risk_priority_eq_two {s : String} (h : risk_priority s = 2) : s = "MEDIUM" := by
  unfold risk_priority at h
  by_cases h1 : s = "HIGH"
  · rw [if_pos (by simp [h1])] at h
    omega
  · rw [if_neg (by simp [h1])] at h
    by_cases h2 : s = "MEDIUM"
    · exact h2
    · rw [if_neg (by simp [h2])] at h
      omega

/-- C7: `supply_risks` is sorted with risk tier dominant (HIGH before
MEDIUM before LOW) and, within an equal tier, higher `affected_dish_count`
first — stated both as pairwise descending-lexicographic order on
`(risk_priority, affected_dish_count)` and as tier statements for any two
entries in order. -/
theorem supply_risks_sorted (e : CostEngine) (delays : List Delay) (t : Int) :
    List.Pairwise
      (fun a b : SupplyRisk =>
        risk_priority b.risk_level < risk_priority a.risk_level ∨
          (risk_priority b.risk_level = risk_priority a.risk_level ∧
            b.affected_dish_count ≤ a.affected_dish_count))
      (analyze_supply_delays e delays t).supply_risks ∧
    (∀ a b : SupplyRisk,
        [a, b].Sublist (analyze_supply_delays e delays t).supply_risks →
        ((b.risk_level = "HIGH" → a.risk_level = "HIGH") ∧
         (b.risk_level = "MEDIUM" →
            a.risk_level = "HIGH" ∨ a.risk_level = "MEDIUM") ∧
         (a.risk_level = b.risk_level →
            b.affected_dish_count ≤ a.affected_dish_count))) := by
  have hsorted :
      List.Pairwise byRiskDesc (analyze_supply_delays e delays t).supply_risks := by
    rw [asd_risks]
    exact List.sorted_insertionSort byRiskDesc _
  constructor
  · exact hsorted
  · intro a b hsub
    have hp := List.Pairwise.sublist hsub hsorted
    have hab : byRiskDesc a b := (List.pairwise_cons.mp hp).1 b (by simp)
    have hb3 := risk_priority_le_three a.risk_level
    refine ⟨?_, ?_, ?_⟩
    · intro hbH
      unfold byRiskDesc at hab
      rw [hbH] at hab
      have hH : risk_priority "HIGH" = 3 := rfl
      rcases hab with hlt | ⟨heq, _⟩
      · exfalso
        omega
      · exact risk_priority_eq_three (by omega)
    · intro hbM
      unfold byRiskDesc at hab
      rw [hbM] at hab
      have hM : risk_priority "MEDIUM" = 2 := rfl
      rcases hab with hlt | ⟨heq, _⟩
      · left
        exact risk_priority_eq_three (by omega)
      · right
        exact risk_priority_eq_two (by omega)
    · intro heqlvl
      unfold byRiskDesc at hab
      rw [heqlvl] at hab
      rcases hab with hlt | ⟨_, hle⟩
      · omega
      · exact hle

/-- The HIGH-risk record of the two-delay C7 example. -/
def riskH : SupplyRisk :=
  { ingredient := "basil", base_lead_time_days := 3, extra_days_delay := 3,
    new_lead_time_days := 6, risk_level := "HIGH", supplier := "HerbCo",
    affected_dishes := ["Margherita"], affected_dish_count := 1 }

/-- The LOW-risk record of the two-delay C7 example. -/
def riskL : SupplyRisk :=
  { ingredient := "basil", base_lead_time_days := 3, extra_days_delay := 1,
    new_lead_time_days := 4, risk_level := "LOW", supplier := "HerbCo",
    affected_dishes := ["Margherita"], affected_dish_count := 1 }

/-- Witness for C7: a HIGH and a LOW risk at the basil engine, in sorted
order. -/
theorem supply_risks_sorted_witness :
    [riskH, riskL].Sublist
      (analyze_supply_delays engD [⟨"basil", 3⟩, ⟨"basil", 1⟩] 5).supply_risks ∧
    ((riskL.risk_level = "HIGH" → riskH.risk_level = "HIGH") ∧
     (riskL.risk_level = "MEDIUM" →
        riskH.risk_level = "HIGH" ∨ riskH.risk_level = "MEDIUM") ∧
     (riskH.risk_level = riskL.risk_level →
        riskL.affected_dish_count ≤ riskH.affected_dish_count)) := by
  have heq : (analyze_supply_delays engD [⟨"basil", 3⟩, ⟨"basil", 1⟩] 5).supply_risks =
      [riskH, riskL] := by decide
  have hsub : [riskH, riskL].Sublist
      (analyze_supply_delays engD [⟨"basil", 3⟩, ⟨"basil", 1⟩] 5).supply_risks := by
    rw [heq]
  exact ⟨hsub,
    (supply_risks_sorted engD [⟨"basil", 3⟩, ⟨"basil", 1⟩] 5).2 riskH riskL hsub⟩

theorem atRiskDishes_ingredient {e : CostEngine} {risks : List SupplyRisk}
    {ar : AtRiskDish} (h : ar ∈ atRiskDishes e risks) :
    ∃ risk ∈ risks, ar.affected_ingredient = risk.ingredient := by
  unfold atRiskDishes at h
  rw [List.mem_flatMap] at h
  obtain ⟨risk, hrisk, har⟩ := h
  refine ⟨risk, hrisk, ?_⟩
  by_cases hlvl : (risk.risk_level == "HIGH" || risk.risk_level == "MEDIUM") = true
  · rw [if_pos hlvl] at har
    rw [List.mem_filterMap] at har
    obtain ⟨dish_name, _, hm⟩ := har
    cases hfd : e.menu_df.find? (fun m => m.menu_item == dish_name) with
    | none => rw [hfd] at hm; exact Option.noConfusion hm
    | some dish_info =>
        rw [hfd] at hm
        have hh := Option.some.inj hm
        rw [← hh]
  · rw [if_neg hlvl] at har
    exact absurd har (List.not_mem_nil ar)

/-- C10: a delay entry whose ingredient is unknown is skipped by the risk
loop — no `supply_risks` entry and no `at_risk_dishes` entry mentions it —
yet its ingredient and extra_days still appear in the `delays_analyzed`
echo map, which is built from the raw input list. -/
theorem unknown_delay_echoed :
    ∀ (e : CostEngine) (delays : List Delay) (t : Int) (d : Delay),
      d ∈ delays →
      findIngredient e d.ingredient = none →
      (∀ d2 ∈ delays, d2.ingredient = d.ingredient → d2.extra_days = d.extra_days) →
      (∀ r ∈ (analyze_supply_delays e delays t).supply_risks,
          r.ingredient ≠ d.ingredient) ∧
      (∀ ar ∈ (analyze_supply_delays e delays t).at_risk_dishes,
          ar.affected_ingredient ≠ d.ingredient) ∧
      dictGet? (analyze_supply_delays e delays t).delays_analyzed d.ingredient =
        some d.extra_days := by
  intro e delays t d hd hnone huniq
  refine ⟨?_, ?_, ?_⟩
  · intro r hr
    rw [asd_risks, List.mem_insertionSort] at hr
    obtain ⟨d2, _, info, hfi, hrr⟩ := mem_supplyRisksRaw hr
    intro hcontra
    rw [hrr] at hcontra
    have h1 : d2.ingredient = d.ingredient := hcontra
    rw [h1, hnone] at hfi
    exact Option.noConfusion hfi
  · intro ar har
    rw [asd_at_risk] at har
    obtain ⟨risk, hrisk, hing⟩ := atRiskDishes_ingredient har
    rw [List.mem_insertionSort] at hrisk
    obtain ⟨d2, _, info, hfi, hrr⟩ := mem_supplyRisksRaw hrisk
    intro hcontra
    rw [hing, hrr] at hcontra
    have h1 : d2.ingredient = d.ingredient := hcontra
    rw [h1, hnone] at hfi
    exact Option.noConfusion hfi
  · rw [asd_delays_analyzed, dictGet?_buildDict]
    cases hfind : (delays.map (fun d => (d.ingredient, d.extra_days))).reverse.find?
        (fun p => p.1 == d.ingredient) with
    | none =>
        exfalso
        rw [List.find?_eq_none] at hfind
        refine (hfind (d.ingredient, d.extra_days) ?_) (by simp)
        rw [List.mem_reverse, List.mem_map]
        exact ⟨d, hd, rfl⟩
    | some q =>
        have hqmem := List.mem_of_find?_eq_some hfind
        rw [List.mem_reverse, List.mem_map] at hqmem
        obtain ⟨d2, hd2, hq⟩ := hqmem
        have h1 : d2.ingredient = d.ingredient := by
          have hq1 := List.find?_some hfind
          rw [← hq] at hq1
          simpa using hq1
        have h2 : q.2 = d.extra_days := by
          rw [← hq]
          exact huniq d2 hd2 h1
        simp [h2]

/-- Witness for C10: a delay on unknown "truffle" at the basil engine. -/
theorem unknown_delay_echoed_witness :
    ((⟨"truffle", 4⟩ : Delay) ∈ [(⟨"truffle", 4⟩ : Delay)]) ∧
    findIngredient engD "truffle" = none ∧
    ((∀ r ∈ (analyze_supply_delays engD [⟨"truffle", 4⟩] 5).supply_risks,
        r.ingredient ≠ "truffle") ∧
     (∀ ar ∈ (analyze_supply_delays engD [⟨"truffle", 4⟩] 5).at_risk_dishes,
        ar.affected_ingredient ≠ "truffle") ∧
     dictGet? (analyze_supply_delays engD [⟨"truffle", 4⟩] 5).delays_analyzed "truffle" =
        some 4) := by
  refine ⟨by simp, by decide, ?_⟩
  exact unknown_delay_echoed engD [⟨"truffle", 4⟩] 5 ⟨"truffle", 4⟩
    (by simp) (by decide) (by decide)

/-! ## Substitution-engine lemmas -/

/-- The `ingredient_subs` filter: allowed rules for one ingredient. -/
def allowedRulesFor (eng : SubstitutionEngine) (ing : String) : List SubstRule :=
  eng.substitutions_df.filter (fun r => r.ingredient == ing && r.allowed)

/-- The `context_subs` filter: allowed rules whose context contains the
given context. -/
def contextMatching (eng : SubstitutionEngine) (ing c : String) : List SubstRule :=
  (allowedRulesFor eng ing).filter (fun r : SubstRule => ctxContains r.context c)

theorem gsfi_some (eng : SubstitutionEngine) (ing c : String) :
    get_substitutions_for_ingredient eng ing (some c) =
      (if c.isEmpty then allowedRulesFor eng ing
       else if (contextMatching eng ing c).isEmpty then allowedRulesFor eng ing
       else contextMatching eng ing c).map mkRuleOut := rfl

theorem hasInfix_iff (pat : List Char) :
    ∀ hay : List Char, hasInfix pat hay = true ↔ pat <:+: hay := by
  intro hay
  induction hay with
  | nil =>
      simp only [hasInfix, List.isEmpty_iff]
      constructor
      · intro h
        rw [h]
      · intro h
        exact List.eq_nil_of_infix_nil h
  | cons h t ih =>
      simp only [hasInfix, Bool.or_eq_true, ih, List.isPrefixOf_iff_prefix]
      exact (List.infix_cons_iff).symm

theorem ctxContains_empty (s : String) : ctxContains s "" = true := by
  unfold ctxContains
  have h : ("" : String).toList.map Char.toLower = [] := rfl
  rw [h, hasInfix_iff]
  exact List.nil_infix

/-- The narrowing-with-fallback property C8 claims, proved of the
spec-prescribed literal-substring semantics (`ctxContains`): with a
non-null context the result is exactly the allowed rules of the
ingredient whose context contains it case-insensitively when any exist,
otherwise all of the ingredient allowed rules — never empty merely
because the context matched nothing.  The source as executed diverges
from this on regex-metacharacter contexts; see
`context_regex_divergence`. -/
theorem context_filter_fallback (eng : SubstitutionEngine) (ing c : String) :
    (contextMatching eng ing c ≠ [] →
      get_substitutions_for_ingredient eng ing (some c) =
        (contextMatching eng ing c).map mkRuleOut) ∧
    (contextMatching eng ing c = [] →
      get_substitutions_for_ingredient eng ing (some c) =
        (allowedRulesFor eng ing).map mkRuleOut) ∧
    (allowedRulesFor eng ing ≠ [] →
      get_substitutions_for_ingredient eng ing (some c) ≠ []) := by
  rw [gsfi_some]
  by_cases hce : c.isEmpty
  · rw [if_pos hce]
    have hc : c = "" := (String.isEmpty_iff c).mp hce
    have hmatch : contextMatching eng ing c = allowedRulesFor eng ing := by
      unfold contextMatching
      rw [hc]
      rw [List.filter_eq_self]
      intro r _
      exact ctxContains_empty r.context
    refine ⟨fun _ => by rw [hmatch], fun _ => rfl, fun hne hmap => ?_⟩
    exact hne (List.map_eq_nil_iff.mp hmap)
  · rw [if_neg hce]
    by_cases hm : (contextMatching eng ing c).isEmpty
    · rw [if_pos hm]
      have hmnil : contextMatching eng ing c = [] := List.isEmpty_iff.mp hm
      exact ⟨fun hne => absurd hmnil hne, fun _ => rfl,
        fun hne hmap => hne (List.map_eq_nil_iff.mp hmap)⟩
    · rw [if_neg hm]
      have hmne : contextMatching eng ing c ≠ [] := by
        intro h
        exact hm (by rw [h]; rfl)
      refine ⟨fun _ => rfl, fun he => absurd he hmne, fun _ hmap => ?_⟩
      exact hmne (List.map_eq_nil_iff.mp hmap)

/-- Two allowed substitution rules for basil, with different contexts. -/
def ruleB : SubstRule :=
  { ingredient := "basil", substitute := "oregano", context := "pizza",
    allowed := true, rationale := "peppery" }

def ruleB2 : SubstRule :=
  { ingredient := "basil", substitute := "thyme", context := "salad",
    allowed := true, rationale := "earthy" }

/-- Substitution engine for the C8/C9 witnesses. -/
def engS : SubstitutionEngine :=
  { substitutions_df := [ruleB, ruleB2], ingredients_df := [] }

/-- Concrete exercise of `context_filter_fallback`: context "pizza"
matches one rule and narrows to it; context "sushi" matches none and
falls back to both allowed rules (both contexts are regex-free, so the
source behaves identically there). -/
theorem context_filter_fallback_witness :
    contextMatching engS "basil" "pizza" ≠ [] ∧
    get_substitutions_for_ingredient engS "basil" (some "pizza") =
      (contextMatching engS "basil" "pizza").map mkRuleOut ∧
    contextMatching engS "basil" "sushi" = [] ∧
    get_substitutions_for_ingredient engS "basil" (some "sushi") =
      (allowedRulesFor engS "basil").map mkRuleOut ∧
    allowedRulesFor engS "basil" ≠ [] ∧
    get_substitutions_for_ingredient engS "basil" (some "sushi") ≠ [] :=
  ⟨by decide,
   (context_filter_fallback engS "basil" "pizza").1 (by decide),
   by decide,
   (context_filter_fallback engS "basil" "sushi").2.1 (by decide),
   by decide,
   (context_filter_fallback engS "basil" "sushi").2.2 (by decide)⟩

/-- Matching of a regex pattern made of literal characters and the dot
wildcard against a prefix of the text — the fragment of Python `re`
semantics that the C8 failing input exercises. -/
def reDotMatchAt : List Char → List Char → Bool
  | [], _ => true
  | _ :: _, [] => false
  | p :: ps, c :: cs => (p == '.' || p == c) && reDotMatchAt ps cs

/-- `re.search` for that fragment: the pattern matches at some position.
pandas `str.contains(pat)` with its default `regex=True` is
`re.search(pat, value) is not None`. -/
def reDotSearch (pat : List Char) : List Char → Bool
  | [] => reDotMatchAt pat []
  | c :: cs => reDotMatchAt pat (c :: cs) || reDotSearch pat cs

/-- The source filter as pandas actually executes it on a dot-wildcard
context: case-insensitive regex search of the lowered context in the
lowered rule context. -/
def ctxContainsRegexDot (hay pat : String) : Bool :=
  reDotSearch (pat.toList.map Char.toLower) (hay.toList.map Char.toLower)

/-- Allowed basil rule with context "abc", for the C8 failing input. -/
def ruleAbc : SubstRule :=
  { ingredient := "basil", substitute := "oregano", context := "abc",
    allowed := true, rationale := "slot one" }

/-- Allowed basil rule with context "xyz", for the C8 failing input. -/
def ruleXyz : SubstRule :=
  { ingredient := "basil", substitute := "thyme", context := "xyz",
    allowed := true, rationale := "slot two" }

/-- Substitution engine of the C8 failing input. -/
def engS8 : SubstitutionEngine :=
  { substitutions_df := [ruleAbc, ruleXyz], ingredients_df := [] }

/-- C8 (code bug): at the failing input — allowed basil rules with
contexts "abc" and "xyz", query context "a.c" — pandas executes the
context as a regular expression (the `str.contains` default), so the
source filter keeps the "abc" rule (the dot matches the letter b) and the
function returns only that rule, while the claimed and spec-prescribed
case-insensitive literal-substring semantics matches nothing and falls
back to the full allowed set.  Both readings of the filter are evaluated
here: the regex reading narrows to `ruleAbc`; the claimed reading leaves
the narrowed set empty, so the function returns both allowed rules. -/
theorem context_regex_divergence :
    ctxContainsRegexDot "abc" "a.c" = true ∧
    ctxContains "abc" "a.c" = false ∧
    (allowedRulesFor engS8 "basil").filter
      (fun r : SubstRule => ctxContainsRegexDot r.context "a.c") = [ruleAbc] ∧
    contextMatching engS8 "basil" "a.c" = [] ∧
    get_substitutions_for_ingredient engS8 "basil" (some "a.c") =
      (allowedRulesFor engS8 "basil").map mkRuleOut ∧
    (allowedRulesFor engS8 "basil").map mkRuleOut =
      [mkRuleOut ruleAbc, mkRuleOut ruleXyz] := by
  decide

theorem dedupSubs_key_nodup :
    ∀ (l : List Substitution) (seen : List (String × String × String)),
      ((dedupSubs seen l).map subKey).Nodup ∧
      (∀ s ∈ dedupSubs seen l, subKey s ∉ seen) := by
  intro l
  induction l with
  | nil => intro seen; exact ⟨List.nodup_nil, by simp [dedupSubs]⟩
  | cons h rest ih =>
      intro seen
      by_cases hh : subKey h ∈ seen
      · simp only [dedupSubs, if_pos hh]
        exact ih seen
      · simp only [dedupSubs, if_neg hh]
        obtain ⟨ihn, ihs⟩ := ih (subKey h :: seen)
        constructor
        · rw [List.map_cons, List.nodup_cons]
          refine ⟨?_, ihn⟩
          rw [List.mem_map]
          rintro ⟨t, ht, hkey⟩
          exact (ihs t ht) (by rw [hkey]; exact List.mem_cons_self _ _)
        · intro t ht
          rcases List.mem_cons.mp ht with h1 | h1
          · rw [h1]
            exact hh
          · intro hseen
            exact (ihs t h1) (List.mem_cons_of_mem _ hseen)

theorem dedupSubs_find_first :
    ∀ (l : List Substitution) (seen : List (String × String × String))
      (s : Substitution), s ∈ dedupSubs seen l →
        subKey s ∉ seen ∧ l.find? (fun t => subKey t == subKey s) = some s := by
  intro l
  induction l with
  | nil => intro seen s hs; simp [dedupSubs] at hs
  | cons h rest ih =>
      intro seen s hs
      by_cases hh : subKey h ∈ seen
      · simp only [dedupSubs, if_pos hh] at hs
        obtain ⟨hns, hfind⟩ := ih seen s hs
        have hne : subKey h ≠ subKey s := by
          intro he
          exact hns (he ▸ hh)
        constructor
        · exact hns
        · rw [List.find?_cons_of_neg _ (by simp [hne])]
          exact hfind
      · simp only [dedupSubs, if_neg hh] at hs
        rcases List.mem_cons.mp hs with h1 | h1
        · subst h1
          constructor
          · exact hh
          · rw [List.find?_cons_of_pos _ (by simp)]
        · obtain ⟨hns, hfind⟩ := ih (subKey h :: seen) s h1
          have hne : subKey h ≠ subKey s := by
            intro he
            exact hns (he ▸ List.mem_cons_self _ _)
          constructor
          · intro hseen
            exact hns (List.mem_cons_of_mem _ hseen)
          · rw [List.find?_cons_of_neg _ (by simp [hne])]
            exact hfind

theorem dedupSubs_covers :
    ∀ (l : List Substitution) (seen : List (String × String × String))
      (s : Substitution), s ∈ l →
        subKey s ∈ seen ∨ ∃ t ∈ dedupSubs seen l, subKey t = subKey s := by
  intro l
  induction l with
  | nil => intro seen s hs; simp at hs
  | cons h rest ih =>
      intro seen s hs
      by_cases hh : subKey h ∈ seen
      · simp only [dedupSubs, if_pos hh]
        rcases List.mem_cons.mp hs with h1 | h1
        · left
          rw [h1]
          exact hh
        · exact ih seen s h1
      · simp only [dedupSubs, if_neg hh]
        rcases List.mem_cons.mp hs with h1 | h1
        · right
          exact ⟨h, List.mem_cons_self _ _, by rw [h1]⟩
        · rcases ih (subKey h :: seen) s h1 with h2 | h2
          · rcases List.mem_cons.mp h2 with h3 | h3
            · right
              exact ⟨h, List.mem_cons_self _ _, h3.symm⟩
            · left
              exact h3
          · obtain ⟨t, ht, hk⟩ := h2
            right
            exact ⟨t, List.mem_cons_of_mem _ ht, hk⟩

/-- C9: `find_substitutions` output has at most one entry per
`(original, substitute, context)` triple; each kept entry is the first
occurrence of its triple in the pre-dedup list, and every triple that
occurs pre-dedup is still represented. -/
theorem find_substitutions_dedup (eng : SubstitutionEngine)
    (impact : ImpactAnalysis) :
    ((find_substitutions eng impact).map subKey).Nodup ∧
    (∀ s ∈ find_substitutions eng impact,
        (availableSubstitutions eng impact).find?
          (fun t => subKey t == subKey s) = some s) ∧
    (∀ s ∈ availableSubstitutions eng impact,
        ∃ t ∈ find_substitutions eng impact, subKey t = subKey s) := by
  unfold find_substitutions
  refine ⟨(dedupSubs_key_nodup _ []).1, ?_, ?_⟩
  · intro s hs
    exact (dedupSubs_find_first _ [] s hs).2
  · intro s hs
    rcases dedupSubs_covers _ [] s hs with h | h
    · simp at h
    · exact h

/-- Two price-shock-affected dishes that surface the same rule. -/
def dishA : DishImpact :=
  { name := "Pizza One", category := "pizza", cost_increase := 1,
    percentage_increase := 10, monthly_impact := 100,
    affected_ingredient := ["basil"], menu_price := 10 }

def dishB : DishImpact :=
  { name := "Pizza Two", category := "pizza", cost_increase := 2,
    percentage_increase := 20, monthly_impact := 200,
    affected_ingredient := ["basil"], menu_price := 11 }

def impactW : ImpactAnalysis := ImpactAnalysis.priceShock [dishA, dishB]

/-- The single deduplicated output entry of the C9 witness (kept from the
first dish). -/
def subW : Substitution :=
  { original := "basil", substitute := "oregano", context := "pizza",
    rationale := "peppery", comparison := "Cost impact unknown",
    affected_dish := "Pizza One", dish_category := "pizza" }

/-- Witness for C9: both dishes yield the identical triple; the output
keeps exactly the first occurrence. -/
theorem find_substitutions_dedup_witness :
    subW ∈ find_substitutions engS impactW ∧
    (availableSubstitutions engS impactW).find?
      (fun t => subKey t == subKey subW) = some subW ∧
    find_substitutions engS impactW = [subW] := by
  have hmem : subW ∈ find_substitutions engS impactW := by decide
  exact ⟨hmem, (find_substitutions_dedup engS impactW).2.1 subW hmem, by decide⟩
